import Mathlib

/-!
A verification development for a per-user stock-portfolio ledger
(`src/main.py`): the SQLite-backed position store, the startup schema
migration (`init_db`), the purchase path with weighted-average cost
merging (`buy_stock`), and the portfolio report (`get_portfolio_status`).

The SQLite table `portfolio (user_id TEXT, symbol TEXT, quantity INTEGER,
avg_price REAL, PRIMARY KEY (user_id, symbol))` is embedded as a list of
rows; SQL statements used by the code become the corresponding list
operations.  Python floats (`REAL`) are modelled as rationals, Python
ints as `Int`.  The external price oracle (`yf.Ticker(...)`, which the
code wraps in try/except) is modelled as an `Option` / function-to-
`Option` argument: `none` is the exception branch.
-/

namespace StockTrader

/-- One row of the multi-tenant `portfolio` table. -/
structure Position where
  user_id : String
  symbol : String
  quantity : Int
  avg_price : ℚ
deriving Repr, DecidableEq

/-- One row of the legacy single-tenant table (no `user_id` column). -/
structure LegacyRow where
  symbol : String
  quantity : Int
  avg_price : ℚ
deriving Repr, DecidableEq

/-- The durable content of the `portfolio` table. -/
abbrev Store := List Position

/-- Row predicate for the SQL key match `user_id=? AND symbol=?`. -/
def keyMatch (u s : String) (r : Position) : Bool :=
  r.user_id == u && r.symbol == s

/-- `SELECT quantity, avg_price FROM portfolio WHERE user_id=? AND symbol=?`
followed by `fetchone` (main.py:112-116). -/
def dbSelectPos (store : Store) (u s : String) : Option (Int × ℚ) :=
  (store.find? (keyMatch u s)).map (fun r => (r.quantity, r.avg_price))

/-- `INSERT INTO portfolio (user_id, symbol, quantity, avg_price) VALUES
(?, ?, ?, ?)` (main.py:131-134). -/
def dbInsert (store : Store) (u s : String) (q : Int) (p : ℚ) : Store :=
  store ++ [⟨u, s, q, p⟩]

/-- `UPDATE portfolio SET quantity=?, avg_price=? WHERE user_id=? AND
symbol=?` (main.py:125-128). -/
def dbUpdate (store : Store) (u s : String) (q : Int) (p : ℚ) : Store :=
  store.map (fun r =>
    if keyMatch u s r then { r with quantity := q, avg_price := p } else r)

/-- `SELECT symbol, quantity, avg_price FROM portfolio WHERE user_id=?`
followed by `fetchall` (main.py:149-153). -/
def dbSelectUser (store : Store) (u : String) : List Position :=
  store.filter (fun r => r.user_id == u)

/-- The single-run schema state of the database file: the `portfolio`
table is absent, legacy-shaped, or multi-tenant-shaped. -/
inductive Table where
  | legacy (rows : List LegacyRow)
  | multi (rows : List Position)
deriving Repr, DecidableEq

/-- The database file: the `portfolio` table (if any) and the transient
`old_portfolio` table (if any; the migration renames into it and drops
it again within one run). -/
structure DBFile where
  portfolio : Option Table
  old_portfolio : Option Table
deriving Repr, DecidableEq

/-- How the migration tags a legacy row:
`SELECT 'local_user', symbol, quantity, avg_price FROM old_portfolio`
(main.py:65-68). -/
def migrated (r : LegacyRow) : Position :=
  ⟨"local_user", r.symbol, r.quantity, r.avg_price⟩

/-- `init_db` (main.py:24-76).  If the `portfolio` table is absent it is
created in the multi-tenant shape; if it already has a `user_id` column
nothing happens; otherwise the legacy table is renamed to
`old_portfolio`, a fresh multi-tenant table is created, every legacy row
is copied in tagged with `'local_user'`, and `old_portfolio` is dropped.
If `old_portfolio` already exists the `ALTER TABLE ... RENAME` raises;
the transaction is rolled back (state unchanged) and the error
propagates, modelled as `Except.error`. -/
def init_db (db : DBFile) : Except String DBFile :=
  match db.portfolio with
  | none => .ok { db with portfolio := some (.multi []) }
  | some (.multi _) => .ok db
  | some (.legacy rows) =>
      match db.old_portfolio with
      | some _ => .error "Database initialization error"
      | none =>
          .ok { portfolio := some (.multi (rows.map migrated)),
                old_portfolio := none }

/-- Outcome of `buy_stock`, abstracting the returned message strings. -/
inductive BuyResult where
  | notFound (symbol : String)
  | dbError
  | ok (quantity : Int) (price : ℚ) (user_id : String)
deriving Repr, DecidableEq

/-- `buy_stock` (main.py:97-140).  `price?` is the oracle lookup
(`yf.Ticker(symbol).fast_info` inside try/except): `none` means the
except branch returns "Could not find stock ..." before any database
access.  Otherwise the existing row for `(user_id, symbol)` is read; if
present, the weighted-average merge runs (a zero `new_qty` raises
`ZeroDivisionError` before any write, so the store is unchanged and the
generic database-error message is returned); if absent, a fresh row is
inserted.  Returns the resulting store and the outcome. -/
def buy_stock (price? : Option ℚ) (user_id symbol : String) (quantity : Int)
    (store : Store) : Store × BuyResult :=
  match price? with
  | none => (store, .notFound symbol)
  | some price =>
      match dbSelectPos store user_id symbol with
      | some (old_qty, old_avg) =>
          let new_qty := old_qty + quantity
          if new_qty = 0 then
            (store, .dbError)
          else
            let total_cost := (old_qty : ℚ) * old_avg + (quantity : ℚ) * price
            let new_avg := total_cost / (new_qty : ℚ)
            (dbUpdate store user_id symbol new_qty new_avg,
             .ok quantity price user_id)
      | none =>
          (dbInsert store user_id symbol quantity price,
           .ok quantity price user_id)

/-- One line of the portfolio report (main.py:170 resp. 172). -/
inductive ReportLine where
  | priced (symbol : String) (quantity : Int) (avg_price curr pnl : ℚ)
  | unavailable (symbol : String)
deriving Repr, DecidableEq

/-- Outcome of `get_portfolio_status`, abstracting the report string:
either the "Your portfolio is empty." message or the per-symbol lines
plus the total profit/loss. -/
inductive PortfolioResult where
  | empty
  | report (lines : List ReportLine) (total_profit : ℚ)
deriving Repr, DecidableEq

/-- The body of the report loop (main.py:161-172), one position row at a
time: on oracle success append the priced line and accumulate the
profit/loss `market_value - cost_basis` into the running total; on
failure append the could-not-fetch line and leave the total untouched. -/
def reportStep (oracle : String → Option ℚ) (acc : List ReportLine × ℚ)
    (r : Position) : List ReportLine × ℚ :=
  match oracle r.symbol with
  | some current_price =>
      let market_value := current_price * (r.quantity : ℚ)
      let cost_basis := r.avg_price * (r.quantity : ℚ)
      let pnl := market_value - cost_basis
      (acc.1 ++ [ReportLine.priced r.symbol r.quantity r.avg_price
                  current_price pnl],
       acc.2 + pnl)
  | none =>
      (acc.1 ++ [ReportLine.unavailable r.symbol], acc.2)

/-- `get_portfolio_status` (main.py:143-178).  `oracle` is the per-symbol
price lookup (`yf.Ticker(symbol).fast_info` inside try/except inside the
loop): `none` is the except branch.  The user's rows are selected; if
there are none the empty-portfolio message is returned.  Otherwise the
loop folds `reportStep` over the rows starting from no lines and a total
of 0.  Returns the (unchanged) store and the outcome; the function
issues no INSERT/UPDATE/DELETE. -/
def get_portfolio_status (oracle : String → Option ℚ) (user_id : String)
    (store : Store) : Store × PortfolioResult :=
  let rows := dbSelectUser store user_id
  if rows.isEmpty then
    (store, .empty)
  else
    let res := rows.foldl (reportStep oracle) ([], 0)
    (store, .report res.1 res.2)

/-- The line `get_portfolio_status` produces for one position row, as a
function of the oracle: used to state that the report covers every held
symbol in order. -/
def lineOf (oracle : String → Option ℚ) (r : Position) : ReportLine :=
  match oracle r.symbol with
  | some current_price =>
      .priced r.symbol r.quantity r.avg_price current_price
        (current_price * (r.quantity : ℚ) - r.avg_price * (r.quantity : ℚ))
  | none => .unavailable r.symbol

/-- Per-row profit/loss at a resolved price. -/
def rowPnl (oracle : String → Option ℚ) (r : Position) : ℚ :=
  match oracle r.symbol with
  | some current_price =>
      current_price * (r.quantity : ℚ) - r.avg_price * (r.quantity : ℚ)
  | none => 0

/-- Aggregate profit/loss over exactly the rows whose price resolved. -/
def resolvedPnlTotal (oracle : String → Option ℚ) (rows : List Position) : ℚ :=
  ((rows.filter (fun r => (oracle r.symbol).isSome)).map (rowPnl oracle)).sum

/-- One purchase event in a trace: the acting user, the symbol, the
quantity bought and the price the oracle returned for that call. -/
structure Trade where
  user : String
  symbol : String
  qty : Int
  price : ℚ
deriving Repr, DecidableEq

/-- Run a sequence of successful-oracle purchases through `buy_stock`,
threading the store. -/
def runTrades (ts : List Trade) (store : Store) : Store :=
  ts.foldl (fun st t => (buy_stock (some t.price) t.user t.symbol t.qty st).1)
    store

/-- The events of a trace that belong to one (user, symbol) key. -/
def tradesFor (u s : String) (ts : List Trade) : List Trade :=
  ts.filter (fun t => t.user == u && t.symbol == s)

/-- Total quantity of a list of trades. -/
def sumQty (ts : List Trade) : Int :=
  (ts.map Trade.qty).sum

/-- Total cost (quantity times price, summed) of a list of trades. -/
def sumCost (ts : List Trade) : ℚ :=
  (ts.map (fun t => (t.qty : ℚ) * t.price)).sum

/-! ## Store lemmas -/

theorem keyMatch_iff {u s : String} {r : Position} :
    keyMatch u s r = true ↔ r.user_id = u ∧ r.symbol = s := by
  simp [keyMatch]

theorem keyMatch_ne {u s u' s' : String} {r : Position}
    (hne : u ≠ u' ∨ s ≠ s') (hr : keyMatch u s r = true) :
    keyMatch u' s' r = false := by
  rcases keyMatch_iff.mp hr with ⟨h1, h2⟩
  apply Bool.eq_false_iff.mpr
  intro hc
  rcases keyMatch_iff.mp hc with ⟨h1', h2'⟩
  rcases hne with h | h
  · exact h (h1.symm.trans h1')
  · exact h (h2.symm.trans h2')

theorem dbSelectPos_dbUpdate_self {store : Store} {u s : String} (q : Int) (p : ℚ)
    (h : (dbSelectPos store u s).isSome) :
    dbSelectPos (dbUpdate store u s q p) u s = some (q, p) := by
  induction store with
  | nil => simp [dbSelectPos] at h
  | cons r rs ih =>
      by_cases hr : keyMatch u s r
      · have hr' : keyMatch u s { r with quantity := q, avg_price := p } = true := by
          rcases keyMatch_iff.mp hr with ⟨h1, h2⟩
          exact keyMatch_iff.mpr ⟨h1, h2⟩
        simp [dbSelectPos, dbUpdate, List.find?_cons, hr, hr']
      · have hb : keyMatch u s r = false := by simpa using hr
        have h' : (dbSelectPos rs u s).isSome := by
          simpa [dbSelectPos, List.find?_cons, hb] using h
        simpa [dbSelectPos, dbUpdate, List.find?_cons, hb] using ih h'

theorem dbSelectPos_dbUpdate_other {store : Store} {u s u' s' : String}
    (q : Int) (p : ℚ) (hne : u ≠ u' ∨ s ≠ s') :
    dbSelectPos (dbUpdate store u' s' q p) u s = dbSelectPos store u s := by
  induction store with
  | nil => rfl
  | cons r rs ih =>
      by_cases hr : keyMatch u s r
      · have hr' : keyMatch u' s' r = false := keyMatch_ne hne hr
        simp [dbSelectPos, dbUpdate, List.find?_cons, hr, hr']
      · have hb : keyMatch u s r = false := by simpa using hr
        by_cases hr' : keyMatch u' s' r
        · have hb2 : keyMatch u s { r with quantity := q, avg_price := p } = false := by
            simp only [keyMatch] at hb ⊢
            simpa using hb
          simpa [dbSelectPos, dbUpdate, List.find?_cons, hr', hb, hb2] using ih
        · have hb' : keyMatch u' s' r = false := by simpa using hr'
          simpa [dbSelectPos, dbUpdate, List.find?_cons, hb, hb'] using ih

theorem dbSelectPos_dbInsert_self {store : Store} {u s : String} (q : Int) (p : ℚ)
    (h : dbSelectPos store u s = none) :
    dbSelectPos (dbInsert store u s q p) u s = some (q, p) := by
  have hfind : store.find? (keyMatch u s) = none := by
    simpa [dbSelectPos] using h
  simp [dbSelectPos, dbInsert, List.find?_append, hfind, keyMatch]

theorem dbSelectPos_dbInsert_other {store : Store} {u s u' s' : String}
    (q : Int) (p : ℚ) (hne : u ≠ u' ∨ s ≠ s') :
    dbSelectPos (dbInsert store u' s' q p) u s = dbSelectPos store u s := by
  have hrow : keyMatch u s (⟨u', s', q, p⟩ : Position) = false :=
    keyMatch_ne (hne.imp Ne.symm Ne.symm) (by simp [keyMatch])
  cases hfind : store.find? (keyMatch u s) with
  | none => simp [dbSelectPos, dbInsert, List.find?_append, hfind, hrow]
  | some r => simp [dbSelectPos, dbInsert, List.find?_append, hfind]

theorem dbSelectUser_dbUpdate_other {store : Store} {u u' s' : String}
    (q : Int) (p : ℚ) (hne : u' ≠ u) :
    dbSelectUser (dbUpdate store u' s' q p) u = dbSelectUser store u := by
  induction store with
  | nil => rfl
  | cons r rs ih =>
      by_cases hr : keyMatch u' s' r
      · have hu : r.user_id = u' := (keyMatch_iff.mp hr).1
        have hb : (r.user_id == u) = false := by
          simp [hu]
          exact hne
        simp [dbSelectUser, dbUpdate, List.filter_cons, hr, hb] at ih ⊢
        exact ih
      · have hb : keyMatch u' s' r = false := by simpa using hr
        by_cases hu : (r.user_id == u)
        · simp [dbSelectUser, dbUpdate, List.filter_cons, hb, hu] at ih ⊢
          exact ih
        · have hu' : (r.user_id == u) = false := by simpa using hu
          simp [dbSelectUser, dbUpdate, List.filter_cons, hb, hu'] at ih ⊢
          exact ih

theorem dbSelectUser_dbInsert_other {store : Store} {u u' s' : String}
    (q : Int) (p : ℚ) (hne : u' ≠ u) :
    dbSelectUser (dbInsert store u' s' q p) u = dbSelectUser store u := by
  have hb : ((⟨u', s', q, p⟩ : Position).user_id == u) = false := by
    simp
    exact hne
  simp [dbSelectUser, dbInsert, List.filter_append, hb]

/-- A purchase (whatever its outcome) leaves the stored position of every
other (user, symbol) key untouched. -/
theorem buy_stock_lookup_other {store : Store} {u s u' s' : String}
    (price? : Option ℚ) (quantity : Int) (hne : u ≠ u' ∨ s ≠ s') :
    dbSelectPos (buy_stock price? u' s' quantity store).1 u s =
      dbSelectPos store u s := by
  cases price? with
  | none => rfl
  | some price =>
      cases hrow : dbSelectPos store u' s' with
      | none => simpa [buy_stock, hrow] using dbSelectPos_dbInsert_other _ _ hne
      | some qa =>
          obtain ⟨old_qty, old_avg⟩ := qa
          by_cases hz : old_qty + quantity = 0
          · simp [buy_stock, hrow, hz]
          · simpa [buy_stock, hrow, hz] using dbSelectPos_dbUpdate_other _ _ hne

/-- A successful purchase with no existing row stores (quantity, price). -/
theorem buy_stock_lookup_none {store : Store} {u s : String} (q' : Int) (p : ℚ)
    (h : dbSelectPos store u s = none) :
    dbSelectPos (buy_stock (some p) u s q' store).1 u s = some (q', p) := by
  simpa [buy_stock, h] using dbSelectPos_dbInsert_self q' p h

/-- A successful purchase over an existing row (q, a) stores the
weighted-average merge of the two lots. -/
theorem buy_stock_lookup_some {store : Store} {u s : String} {q : Int} {a : ℚ}
    (q' : Int) (p : ℚ) (h : dbSelectPos store u s = some (q, a))
    (hz : q + q' ≠ 0) :
    dbSelectPos (buy_stock (some p) u s q' store).1 u s =
      some (q + q', ((q : ℚ) * a + (q' : ℚ) * p) / ((q + q' : ℤ) : ℚ)) := by
  have hsome : (dbSelectPos store u s).isSome := by simp [h]
  simpa [buy_stock, h, hz] using
    dbSelectPos_dbUpdate_self (q + q')
      (((q : ℚ) * a + (q' : ℚ) * p) / ((q + q' : ℤ) : ℚ)) hsome

theorem init_db_bind_self (db : DBFile) :
    (init_db db).bind init_db = init_db db := by
  rcases db with ⟨p, o⟩
  cases p with
  | none => rfl
  | some t =>
      cases t with
      | multi rows => rfl
      | legacy rows => cases o <;> rfl

/-! ## Claim theorems -/

/-- C2: if the price oracle lookup fails during `buy_stock`, the call
returns the could-not-find-stock failure and the store is returned
entirely unchanged — no row is created or altered. -/
theorem C2_no_mutation_on_oracle_failure (u s : String) (q : Int) (store : Store) :
    buy_stock none u s q store = (store, .notFound s) := rfl

/-- C10: `get_portfolio_status` is read-only: for every store, user and
oracle behaviour, the store it hands back is identical to the one it was
given — it performs no insert, update or delete. -/
theorem C10_report_read_only (oracle : String → Option ℚ) (u : String)
    (store : Store) :
    (get_portfolio_status oracle u store).1 = store := by
  by_cases h : (dbSelectUser store u).isEmpty <;>
    simp [get_portfolio_status, h]

/-- C8: a user holding no positions gets the dedicated empty-portfolio
result from `get_portfolio_status` — which is a different outcome from a
zero-line report with a total of 0, and not an error. -/
theorem C8_empty_portfolio (oracle : String → Option ℚ) (u : String)
    (store : Store) (h : dbSelectUser store u = []) :
    (get_portfolio_status oracle u store).2 = .empty ∧
      PortfolioResult.empty ≠ .report [] 0 := by
  refine ⟨?_, by simp⟩
  simp [get_portfolio_status, h]

theorem C8_empty_portfolio_witness :
    (get_portfolio_status (fun _ => none) "bob"
        [⟨"alice", "AAA", 1, 5⟩]).2 = .empty ∧
      PortfolioResult.empty ≠ .report [] 0 :=
  C8_empty_portfolio (fun _ => none) "bob" [⟨"alice", "AAA", 1, 5⟩] (by rfl)

/-- C4: migrating a legacy single-tenant store copies every legacy row
unchanged under user `"local_user"` into the multi-tenant table, and the
legacy-shaped table is gone afterwards; in particular the row
`("AAA", 3, 50)` becomes `("local_user", "AAA", 3, 50)`. -/
theorem C4_migration_copies_rows :
    (∀ rows : List LegacyRow,
      init_db ⟨some (.legacy rows), none⟩ =
        .ok ⟨some (.multi (rows.map (fun r =>
          ⟨"local_user", r.symbol, r.quantity, r.avg_price⟩))), none⟩) ∧
    init_db ⟨some (.legacy [⟨"AAA", 3, 50⟩]), none⟩ =
      .ok ⟨some (.multi [⟨"local_user", "AAA", 3, 50⟩]), none⟩ := by
  exact ⟨fun rows => rfl, rfl⟩

/-- C5: `init_db` is idempotent: running it twice (sequencing a second
run after the first, in any starting state) equals running it once, and
after any successful run a repeated invocation is a no-op. -/
theorem C5_init_db_idempotent :
    (∀ db : DBFile, (init_db db).bind init_db = init_db db) ∧
    (∀ db d' : DBFile, init_db db = .ok d' → init_db d' = .ok d') := by
  refine ⟨init_db_bind_self, fun db d' h => ?_⟩
  have h2 := init_db_bind_self db
  rw [h] at h2
  simpa [Except.bind] using h2

theorem C5_init_db_idempotent_witness :
    init_db ⟨some (.multi []), none⟩ = .ok ⟨some (.multi []), none⟩ :=
  C5_init_db_idempotent.2 ⟨none, none⟩ ⟨some (.multi []), none⟩ (by rfl)

/-- C6: user isolation: a purchase recorded under user A (whatever the
oracle outcome) leaves user B's selected portfolio rows and B's stored
position for every symbol exactly as they were. -/
theorem C6_user_isolation (price? : Option ℚ) (A B s s' : String) (q : Int)
    (store : Store) (hne : A ≠ B) :
    dbSelectUser (buy_stock price? A s q store).1 B = dbSelectUser store B ∧
    dbSelectPos (buy_stock price? A s q store).1 B s' =
      dbSelectPos store B s' := by
  refine ⟨?_, buy_stock_lookup_other price? q (Or.inl hne.symm)⟩
  cases price? with
  | none => rfl
  | some price =>
      cases hrow : dbSelectPos store A s with
      | none =>
          simpa [buy_stock, hrow] using dbSelectUser_dbInsert_other q price hne
      | some qa =>
          obtain ⟨old_qty, old_avg⟩ := qa
          by_cases hz : old_qty + q = 0
          · simp [buy_stock, hrow, hz]
          · simpa [buy_stock, hrow, hz] using
              dbSelectUser_dbUpdate_other (old_qty + q)
                (((old_qty : ℚ) * old_avg + (q : ℚ) * price) /
                  ((old_qty + q : ℤ) : ℚ)) hne

theorem C6_user_isolation_witness :
    dbSelectUser (buy_stock (some 100) "alice" "AAPL" 5
        [⟨"bob", "AAPL", 2, 10⟩]).1 "bob" =
      dbSelectUser [⟨"bob", "AAPL", 2, 10⟩] "bob" ∧
    dbSelectPos (buy_stock (some 100) "alice" "AAPL" 5
        [⟨"bob", "AAPL", 2, 10⟩]).1 "bob" "AAPL" =
      dbSelectPos [⟨"bob", "AAPL", 2, 10⟩] "bob" "AAPL" :=
  C6_user_isolation (some 100) "alice" "bob" "AAPL" "AAPL" 5
    [⟨"bob", "AAPL", 2, 10⟩] (by decide)

/-- C9 evidence: the purchase path has no quantity-positivity guard: a
purchase of quantity -5 with an available price and no existing row
mutates the store, inserting a position with negative quantity, instead
of being rejected. -/
theorem C9_no_positivity_guard :
    buy_stock (some 100) "local_user" "XYZ" (-5) [] =
      ([⟨"local_user", "XYZ", -5, 100⟩], .ok (-5) 100 "local_user") := rfl

/-- C1: the purchase merge: with no existing row the stored position is
(quantity, price); with an existing row (q, a) a purchase of q' at p
stores (q + q', (q*a + q'*p)/(q + q')); and buying 10 at 100 then 5 at
130 yields quantity 15 at average price 110. -/
theorem C1_weighted_average_merge (u s : String) (store : Store) (q' : Int)
    (p : ℚ) :
    (dbSelectPos store u s = none →
      dbSelectPos (buy_stock (some p) u s q' store).1 u s = some (q', p)) ∧
    (∀ (q : Int) (a : ℚ), dbSelectPos store u s = some (q, a) → q + q' ≠ 0 →
      dbSelectPos (buy_stock (some p) u s q' store).1 u s =
        some (q + q', ((q : ℚ) * a + (q' : ℚ) * p) / ((q + q' : ℤ) : ℚ))) ∧
    dbSelectPos (buy_stock (some 130) "u" "XYZ" 5
        (buy_stock (some 100) "u" "XYZ" 10 []).1).1 "u" "XYZ" =
      some (15, 110) := by
  exact ⟨fun h => buy_stock_lookup_none q' p h,
    fun q a h hz => buy_stock_lookup_some q' p h hz,
    by norm_num [buy_stock, dbSelectPos, dbInsert, dbUpdate, keyMatch,
      List.find?]⟩

theorem C1_weighted_average_merge_witness :
    dbSelectPos (buy_stock (some 100) "u" "XYZ" 10 []).1 "u" "XYZ" =
      some (10, 100) ∧
    dbSelectPos (buy_stock (some 130) "u" "XYZ" 5
        [⟨"u", "XYZ", 10, 100⟩]).1 "u" "XYZ" =
      some (10 + 5, ((10 : ℚ) * 100 + (5 : ℚ) * 130) / (((10 + 5 : ℤ)) : ℚ)) :=
  ⟨(C1_weighted_average_merge "u" "XYZ" [] 10 100).1 (by rfl),
   (C1_weighted_average_merge "u" "XYZ" [⟨"u", "XYZ", 10, 100⟩] 5 130).2.1
      10 100 (by rfl) (by decide)⟩

theorem reportStep_foldl (oracle : String → Option ℚ) (rows : List Position) :
    ∀ (acc : List ReportLine) (t : ℚ),
      rows.foldl (reportStep oracle) (acc, t) =
        (acc ++ rows.map (lineOf oracle), t + resolvedPnlTotal oracle rows) := by
  induction rows with
  | nil => intro acc t; simp [resolvedPnlTotal]
  | cons r rs ih =>
      intro acc t
      cases hp : oracle r.symbol with
      | some cp =>
          rw [List.foldl_cons]
          show List.foldl (reportStep oracle) (reportStep oracle (acc, t) r) rs = _
          rw [show reportStep oracle (acc, t) r =
                (acc ++ [ReportLine.priced r.symbol r.quantity r.avg_price cp
                  (cp * (r.quantity : ℚ) - r.avg_price * (r.quantity : ℚ))],
                 t + (cp * (r.quantity : ℚ) - r.avg_price * (r.quantity : ℚ)))
              from by simp [reportStep, hp]]
          rw [ih]
          have hline : lineOf oracle r =
              ReportLine.priced r.symbol r.quantity r.avg_price cp
                (cp * (r.quantity : ℚ) - r.avg_price * (r.quantity : ℚ)) := by
            simp [lineOf, hp]
          have htot : resolvedPnlTotal oracle (r :: rs) =
              (cp * (r.quantity : ℚ) - r.avg_price * (r.quantity : ℚ)) +
                resolvedPnlTotal oracle rs := by
            simp [resolvedPnlTotal, List.filter_cons, hp, rowPnl]
          rw [List.map_cons, hline, htot]
          refine Prod.ext ?_ ?_
          · simp
          · simp
            ring
      | none =>
          rw [List.foldl_cons]
          show List.foldl (reportStep oracle) (reportStep oracle (acc, t) r) rs = _
          rw [show reportStep oracle (acc, t) r =
                (acc ++ [ReportLine.unavailable r.symbol], t)
              from by simp [reportStep, hp]]
          rw [ih]
          have hline : lineOf oracle r = ReportLine.unavailable r.symbol := by
            simp [lineOf, hp]
          have htot : resolvedPnlTotal oracle (r :: rs) =
              resolvedPnlTotal oracle rs := by
            simp [resolvedPnlTotal, List.filter_cons, hp]
          rw [List.map_cons, hline, htot]
          simp

/-- C7: with at least one held position, `get_portfolio_status` reports
one line per held row, in order (each row's line being the priced line on
oracle success and the unavailable line on failure), and the aggregate
total is the sum of per-row profit/loss over exactly the rows whose
price resolved. -/
theorem C7_partial_failure_report (oracle : String → Option ℚ) (u : String)
    (store : Store) (h : dbSelectUser store u ≠ []) :
    (get_portfolio_status oracle u store).2 =
      .report ((dbSelectUser store u).map (lineOf oracle))
        (resolvedPnlTotal oracle (dbSelectUser store u)) ∧
    (∀ r : Position, oracle r.symbol = none →
      lineOf oracle r = .unavailable r.symbol) := by
  refine ⟨?_, fun r hr => by simp [lineOf, hr]⟩
  have hne : (dbSelectUser store u).isEmpty = false := by
    simpa [List.isEmpty_iff] using h
  simp only [get_portfolio_status, hne, Bool.false_eq_true, if_false]
  rw [reportStep_foldl oracle (dbSelectUser store u) [] 0]
  simp

theorem C7_partial_failure_report_witness :
    (get_portfolio_status
        (fun s => if s = "A" then some 12 else if s = "C" then some 31 else none)
        "u" [⟨"u", "A", 1, 10⟩, ⟨"u", "B", 2, 20⟩, ⟨"u", "C", 3, 30⟩]).2 =
      .report
        (([⟨"u", "A", 1, 10⟩, ⟨"u", "B", 2, 20⟩, ⟨"u", "C", 3, 30⟩] :
            List Position).map (lineOf
          (fun s => if s = "A" then some 12 else if s = "C" then some 31 else none)))
        (resolvedPnlTotal
          (fun s => if s = "A" then some 12 else if s = "C" then some 31 else none)
          [⟨"u", "A", 1, 10⟩, ⟨"u", "B", 2, 20⟩, ⟨"u", "C", 3, 30⟩]) ∧
    lineOf (fun s => if s = "A" then some 12 else if s = "C" then some 31 else none)
        ⟨"u", "B", 2, 20⟩ =
      .unavailable "B" := by
  have h := C7_partial_failure_report
    (fun s => if s = "A" then some 12 else if s = "C" then some 31 else none)
    "u" [⟨"u", "A", 1, 10⟩, ⟨"u", "B", 2, 20⟩, ⟨"u", "C", 3, 30⟩] (by decide)
  refine ⟨?_, h.2 ⟨"u", "B", 2, 20⟩ (by rfl)⟩
  have h1 := h.1
  simpa [dbSelectUser] using h1

/-- Running a trace of successful purchases from a store holding (q, a)
for the key (u, s), with q > 0 and every trade for that key of positive
quantity, yields the weighted-average merge of (q, a) with the trades
for that key — interleaved trades for other keys change nothing. -/
theorem runTrades_lookup_from (u s : String) (ts : List Trade) :
    ∀ (store : Store) (q : Int) (a : ℚ),
      dbSelectPos store u s = some (q, a) → 0 < q →
      (∀ t ∈ tradesFor u s ts, 0 < t.qty) →
      dbSelectPos (runTrades ts store) u s =
        some (q + sumQty (tradesFor u s ts),
          ((q : ℚ) * a + sumCost (tradesFor u s ts)) /
            ((q + sumQty (tradesFor u s ts) : ℤ) : ℚ)) := by
  induction ts with
  | nil =>
      intro store q a h hq _
      have hq0 : (q : ℚ) ≠ 0 := Int.cast_ne_zero.mpr hq.ne'
      simp only [runTrades, List.foldl_nil, tradesFor, List.filter_nil,
        sumQty, sumCost, List.map_nil, List.sum_nil, add_zero, h,
        Option.some.injEq, Prod.mk.injEq]
      exact ⟨trivial, (mul_div_cancel_left₀ a hq0).symm⟩
  | cons t ts ih =>
      intro store q a h hq hpos
      have hrun : runTrades (t :: ts) store =
          runTrades ts (buy_stock (some t.price) t.user t.symbol t.qty store).1 :=
        rfl
      by_cases ht : (t.user == u && t.symbol == s) = true
      · obtain ⟨hu, hs⟩ : t.user = u ∧ t.symbol = s := by simpa using ht
        have hcons : tradesFor u s (t :: ts) = t :: tradesFor u s ts := by
          simp [tradesFor, List.filter_cons, ht]
        have htq : 0 < t.qty :=
          hpos t (by rw [hcons]; exact List.mem_cons_self t _)
        have hz : q + t.qty ≠ 0 := by omega
        have hstep :
            dbSelectPos (buy_stock (some t.price) t.user t.symbol t.qty
              store).1 u s =
              some (q + t.qty,
                ((q : ℚ) * a + (t.qty : ℚ) * t.price) / ((q + t.qty : ℤ) : ℚ)) := by
          rw [hu, hs]
          exact buy_stock_lookup_some t.qty t.price h hz
        have hsub : ∀ t' ∈ tradesFor u s ts, 0 < t'.qty :=
          fun t' ht' => hpos t' (by rw [hcons]; exact List.mem_cons_of_mem t ht')
        have hih := ih _ (q + t.qty)
          (((q : ℚ) * a + (t.qty : ℚ) * t.price) / ((q + t.qty : ℤ) : ℚ))
          hstep (by omega) hsub
        have hc : ((q + t.qty : ℤ) : ℚ) ≠ 0 := Int.cast_ne_zero.mpr hz
        have hnum : ((q + t.qty : ℤ) : ℚ) *
            (((q : ℚ) * a + (t.qty : ℚ) * t.price) / ((q + t.qty : ℤ) : ℚ)) =
            (q : ℚ) * a + (t.qty : ℚ) * t.price := by
          rw [mul_comm, div_mul_cancel₀ _ hc]
        rw [hrun, hih, hcons]
        simp only [sumQty, sumCost, List.map_cons, List.sum_cons]
        rw [hnum]
        simp only [Option.some.injEq, Prod.mk.injEq]
        refine ⟨by omega, ?_⟩
        congr 1
        · ring
        · push_cast
          ring
      · have hbf : (t.user == u && t.symbol == s) = false := by simpa using ht
        have ht' : ¬(t.user = u ∧ t.symbol = s) := by simpa using ht
        have hne2 : u ≠ t.user ∨ s ≠ t.symbol := by
          rcases not_and_or.mp ht' with hx | hx
          · exact Or.inl fun hc => hx hc.symm
          · exact Or.inr fun hc => hx hc.symm
        have hstep :
            dbSelectPos (buy_stock (some t.price) t.user t.symbol t.qty
              store).1 u s = some (q, a) := by
          rw [buy_stock_lookup_other _ _ hne2]
          exact h
        have hcons : tradesFor u s (t :: ts) = tradesFor u s ts := by
          simp [tradesFor, List.filter_cons, hbf]
        have hsub : ∀ t' ∈ tradesFor u s ts, 0 < t'.qty :=
          fun t' ht'' => hpos t' (by rw [hcons]; exact ht'')
        rw [hrun, hcons]
        exact ih _ q a hstep hq hsub

/-- Running a trace of successful purchases from a store with no row for
the key (u, s), with every trade for that key of positive quantity and
at least one such trade, yields quantity `Σ qi` and average price
`Σ (qi * pi) / Σ qi` over the trades for that key. -/
theorem runTrades_lookup_start (u s : String) (ts : List Trade) :
    ∀ store : Store,
      dbSelectPos store u s = none →
      (∀ t ∈ tradesFor u s ts, 0 < t.qty) →
      tradesFor u s ts ≠ [] →
      dbSelectPos (runTrades ts store) u s =
        some (sumQty (tradesFor u s ts),
          sumCost (tradesFor u s ts) /
            ((sumQty (tradesFor u s ts) : ℤ) : ℚ)) := by
  induction ts with
  | nil => intro store _ _ hne; exact absurd rfl hne
  | cons t ts ih =>
      intro store h0 hpos hne
      have hrun : runTrades (t :: ts) store =
          runTrades ts (buy_stock (some t.price) t.user t.symbol t.qty store).1 :=
        rfl
      by_cases ht : (t.user == u && t.symbol == s) = true
      · obtain ⟨hu, hs⟩ : t.user = u ∧ t.symbol = s := by simpa using ht
        have hcons : tradesFor u s (t :: ts) = t :: tradesFor u s ts := by
          simp [tradesFor, List.filter_cons, ht]
        have htq : 0 < t.qty :=
          hpos t (by rw [hcons]; exact List.mem_cons_self t _)
        have hstep :
            dbSelectPos (buy_stock (some t.price) t.user t.symbol t.qty
              store).1 u s = some (t.qty, t.price) := by
          rw [hu, hs]
          exact buy_stock_lookup_none t.qty t.price h0
        have hsub : ∀ t' ∈ tradesFor u s ts, 0 < t'.qty :=
          fun t' ht' => hpos t' (by rw [hcons]; exact List.mem_cons_of_mem t ht')
        have hfrom := runTrades_lookup_from u s ts _ t.qty t.price hstep htq hsub
        rw [hrun, hfrom, hcons]
        simp only [sumQty, sumCost, List.map_cons, List.sum_cons]
      · have hbf : (t.user == u && t.symbol == s) = false := by simpa using ht
        have ht' : ¬(t.user = u ∧ t.symbol = s) := by simpa using ht
        have hne2 : u ≠ t.user ∨ s ≠ t.symbol := by
          rcases not_and_or.mp ht' with hx | hx
          · exact Or.inl fun hc => hx hc.symm
          · exact Or.inr fun hc => hx hc.symm
        have hstep :
            dbSelectPos (buy_stock (some t.price) t.user t.symbol t.qty
              store).1 u s = none := by
          rw [buy_stock_lookup_other _ _ hne2]
          exact h0
        have hcons : tradesFor u s (t :: ts) = tradesFor u s ts := by
          simp [tradesFor, List.filter_cons, hbf]
        rw [hrun, hcons]
        rw [hcons] at hpos hne
        exact ih _ hstep hpos hne

/-- C3: a sequence of successful purchases of one (user, symbol) key,
each of positive quantity and starting from no position, interleaved
arbitrarily with purchases for other users or symbols, ends with
quantity `Σ qi` and average price `Σ (qi * pi) / Σ qi` over exactly the
purchases for that key. -/
theorem C3_sequence_weighted_average (u s : String) (ts : List Trade)
    (store : Store) (h0 : dbSelectPos store u s = none)
    (hpos : ∀ t ∈ tradesFor u s ts, 0 < t.qty)
    (hne : tradesFor u s ts ≠ []) :
    dbSelectPos (runTrades ts store) u s =
      some (sumQty (tradesFor u s ts),
        sumCost (tradesFor u s ts) /
          ((sumQty (tradesFor u s ts) : ℤ) : ℚ)) :=
  runTrades_lookup_start u s ts store h0 hpos hne

theorem C3_sequence_weighted_average_witness :
    dbSelectPos (runTrades
        [⟨"u", "X", 10, 100⟩, ⟨"v", "X", 3, 7⟩, ⟨"u", "Y", 2, 5⟩,
          ⟨"u", "X", 5, 130⟩] []) "u" "X" =
      some (sumQty (tradesFor "u" "X"
          [⟨"u", "X", 10, 100⟩, ⟨"v", "X", 3, 7⟩, ⟨"u", "Y", 2, 5⟩,
            ⟨"u", "X", 5, 130⟩]),
        sumCost (tradesFor "u" "X"
            [⟨"u", "X", 10, 100⟩, ⟨"v", "X", 3, 7⟩, ⟨"u", "Y", 2, 5⟩,
              ⟨"u", "X", 5, 130⟩]) /
          ((sumQty (tradesFor "u" "X"
              [⟨"u", "X", 10, 100⟩, ⟨"v", "X", 3, 7⟩, ⟨"u", "Y", 2, 5⟩,
                ⟨"u", "X", 5, 130⟩]) : ℤ) : ℚ)) :=
  C3_sequence_weighted_average "u" "X"
    [⟨"u", "X", 10, 100⟩, ⟨"v", "X", 3, 7⟩, ⟨"u", "Y", 2, 5⟩,
      ⟨"u", "X", 5, 130⟩] [] (by rfl) (by decide) (by decide)

end StockTrader
